import Mathlib

/-!
Shallow embedding of the indicator computations of `src/APP.py`
(StockMarket_Analysis_withYfinance): simple and exponential moving
averages, the 14-period RSI pipeline, CAGR and beta against a benchmark,
and the `get_data` fetch wrapper.

Closing prices are exact rationals (rounding of IEEE arithmetic is
abstracted away; every claim settled here is about definedness, branch
structure, alignment or exactly representable values).  A pandas `NaN`
cell of a column is `Option.none`; the IEEE special values that the RSI
and beta pipelines can produce (`inf` from division by zero, `NaN` from
`0/0`) are modelled explicitly by the type `Fl`.
-/

namespace StockApp

/-- An IEEE floating-point value as the pipelines of `APP.py` can produce
it: `NaN`, a signed infinity, or a finite value (kept exact in `ℚ`). -/
inductive Fl where
  | nan : Fl
  | inf : Fl
  | ninf : Fl
  | fin : ℚ → Fl
  deriving DecidableEq, Repr

/-- IEEE negation. -/
def Fl.neg : Fl → Fl
  | nan => nan
  | inf => ninf
  | ninf => inf
  | fin q => fin (-q)

/-- IEEE addition (`NaN` absorbs; `inf + ninf = NaN`). -/
def Fl.add : Fl → Fl → Fl
  | nan, _ => nan
  | _, nan => nan
  | inf, ninf => nan
  | ninf, inf => nan
  | inf, _ => inf
  | _, inf => inf
  | ninf, _ => ninf
  | _, ninf => ninf
  | fin a, fin b => fin (a + b)

/-- IEEE subtraction. -/
def Fl.sub (a b : Fl) : Fl := a.add b.neg

/-- IEEE division: `NaN` absorbs, `inf/inf = NaN`, `finite/inf = 0`,
`a/0` is `NaN` for `a = 0` and a signed infinity otherwise. -/
def Fl.div : Fl → Fl → Fl
  | nan, _ => nan
  | _, nan => nan
  | inf, inf => nan
  | inf, ninf => nan
  | ninf, inf => nan
  | ninf, ninf => nan
  | inf, fin b => if b < 0 then ninf else inf
  | ninf, fin b => if b < 0 then inf else ninf
  | fin _, inf => fin 0
  | fin _, ninf => fin 0
  | fin a, fin b =>
      if b = 0 then (if a = 0 then nan else if 0 < a then inf else ninf)
      else fin (a / b)

/-- `series.rolling(w).mean()` of pandas on a `NaN`-free column: entry `i`
is the mean of the trailing `w` values when `w ≤ i+1` (the default
`min_periods` equals the window size), `NaN` before that. -/
def rollingMean (w : ℕ) (xs : List ℚ) : List (Option ℚ) :=
  (List.range xs.length).map (fun i =>
    if w ≤ i + 1 then some ((((xs.drop (i + 1 - w)).take w).sum) / w) else none)

/-- `data['Close'].rolling(window=w).mean()` — APP.py lines 77–78 and
121–123, parameterized over the window (10/20/50/100/200 in the source). -/
def sma (xs : List ℚ) (w : ℕ) : List (Option ℚ) := rollingMean w xs

/-- `data['Close'].ewm(span=s).mean()` — APP.py line 52 (span 9 in the
source).  Pandas default `adjust=True`: entry `i` is the
`(1-α)^j`-weighted mean of the closes up to `i`, with `α = 2/(span+1)`. -/
def ema (xs : List ℚ) (span : ℕ) : List ℚ :=
  (List.range xs.length).map (fun i =>
    (∑ j ∈ Finset.range (i + 1), (1 - 2 / ((span : ℚ) + 1)) ^ j * xs.getD (i - j) 0) /
    (∑ j ∈ Finset.range (i + 1), (1 - 2 / ((span : ℚ) + 1)) ^ j))

/-- `delta = data['Close'].diff()` — APP.py line 88: `NaN` at index 0,
`close[i] − close[i-1]` from index 1 on. -/
def diffList (xs : List ℚ) : List (Option ℚ) :=
  match xs with
  | [] => []
  | x :: rest => none :: List.zipWith (fun cur prev => some (cur - prev)) rest (x :: rest)

/-- `gain = delta.where(delta > 0, 0)` — APP.py line 89.  `where` keeps a
value only where the condition holds; the comparison `NaN > 0` is false,
so the `NaN` at index 0 becomes `0`, not `NaN`. -/
def gainList (xs : List ℚ) : List ℚ :=
  (diffList xs).map (fun d =>
    match d with
    | none => 0
    | some v => if 0 < v then v else 0)

/-- `loss = -delta.where(delta < 0, 0)` — APP.py line 90: the negated
kept-if-negative deltas; the index-0 `NaN` again becomes `0`. -/
def lossList (xs : List ℚ) : List ℚ :=
  (diffList xs).map (fun d =>
    match d with
    | none => 0
    | some v => if v < 0 then -v else 0)

/-- `avg_gain = gain.rolling(p).mean()` — APP.py line 91 (p = 14). -/
def avgGain (xs : List ℚ) (p : ℕ) : List (Option ℚ) := rollingMean p (gainList xs)

/-- `avg_loss = loss.rolling(p).mean()` — APP.py line 92 (p = 14). -/
def avgLoss (xs : List ℚ) (p : ℕ) : List (Option ℚ) := rollingMean p (lossList xs)

/-- `rs = avg_gain / avg_loss` — APP.py line 93: elementwise IEEE
division; a `NaN` average makes the entry `NaN`. -/
def rsList (xs : List ℚ) (p : ℕ) : List Fl :=
  List.zipWith (fun g l =>
    match g, l with
    | some g, some l => Fl.div (Fl.fin g) (Fl.fin l)
    | _, _ => Fl.nan)
    (avgGain xs p) (avgLoss xs p)

/-- `rsi = 100 - (100 / (1 + rs))` — APP.py line 94, elementwise IEEE
arithmetic on the `rs` column. -/
def rsiList (xs : List ℚ) (p : ℕ) : List Fl :=
  (rsList xs p).map (fun r => Fl.sub (Fl.fin 100) (Fl.div (Fl.fin 100) (Fl.add (Fl.fin 1) r)))

/-- CAGR — APP.py lines 134–144.  `start_price = iloc[0]`,
`end_price = iloc[-1]`, `years = (index[-1] - index[0]).days / 365.0`;
the value is printed only when `years > 0`, otherwise (and when the
series is empty, where `iloc[0]` raises and the `except` branch warns)
the run continues with a warning.  Timestamps are day numbers `ℤ`.
Returns `some (endPrice/startPrice, years)`; the displayed number is
`(endPrice/startPrice) ^ (1/years) − 1`, stated over `ℝ` in the
theorems.  `none` is the warning (Unavailable) outcome. -/
def cagr (series : List (ℤ × ℚ)) : Option (ℚ × ℚ) :=
  match series.head?, series.getLast? with
  | some (t0, c0), some (t1, c1) =>
      if 0 < ((t1 - t0 : ℤ) : ℚ) / 365 then some (c1 / c0, ((t1 - t0 : ℤ) : ℚ) / 365)
      else none
  | _, _ => none

/-- First value stored under timestamp `t` in an association list of
`(timestamp, close)` rows. -/
def lookupT (t : ℤ) : List (ℤ × ℚ) → Option ℚ
  | [] => none
  | p :: rest => if p.1 = t then some p.2 else lookupT t rest

/-- `combined = pd.concat([stock, index], axis=1); combined.dropna()` —
APP.py lines 147–149: the rows whose timestamp carries a close in both
series (inner join), in the stock series' (ascending) order. -/
def alignInner (a b : List (ℤ × ℚ)) : List (ℚ × ℚ) :=
  a.filterMap (fun p => (lookupT p.1 b).map (fun q => (p.2, q)))

/-- `combined.pct_change()` — APP.py line 151: `close[i]/close[i-1] − 1`
from index 1 on.  The all-`NaN` first row is omitted here because the
subsequent `.cov()` drops it (pairwise complete observations); faithful
to the float pipeline whenever the closes are nonzero, which the beta
theorems assume. -/
def pctChange (xs : List ℚ) : List ℚ :=
  match xs with
  | [] => []
  | x :: rest => List.zipWith (fun cur prev => cur / prev - 1) rest (x :: rest)

/-- Arithmetic mean of a rational list (0 on the empty list). -/
def meanQ (xs : List ℚ) : ℚ := xs.sum / xs.length

/-- Sample covariance with pandas' default `ddof = 1`. -/
def covQ (xs ys : List ℚ) : ℚ :=
  ((List.zipWith (fun x y => (x - meanQ xs) * (y - meanQ ys)) xs ys).sum) /
    ((xs.length : ℚ) - 1)

/-- One entry of `combined.pct_change().cov()` — APP.py line 151: `NaN`
when fewer than two complete observations remain (with `ddof = 1` pandas
reports `NaN` for counts 0 and 1), the sample covariance otherwise. -/
def covFl (xs ys : List ℚ) : Fl :=
  if xs.length < 2 then Fl.nan else Fl.fin (covQ xs ys)

/-- Beta — APP.py lines 146–155: align the stock and index closes, and
only when the aligned frame is empty warn (`none`, the Unavailable
outcome); otherwise display `cov_matrix.iloc[0,1] / cov_matrix.iloc[1,1]`
as an IEEE value, whatever it is. -/
def beta (stock index : List (ℤ × ℚ)) : Option Fl :=
  let combined := alignInner stock index
  if combined.isEmpty then none
  else
    let ra := pctChange (combined.map Prod.fst)
    let rb := pctChange (combined.map Prod.snd)
    some (Fl.div (covFl ra rb) (covFl rb rb))

/-- Outcome of the `yf.download` call inside `get_data`: a dataframe
(rows of possibly-missing cells) or a raised exception. -/
inductive FetchOutcome where
  | ok : List (List (Option ℚ)) → FetchOutcome
  | raised : FetchOutcome
  deriving DecidableEq, Repr

/-- `df.dropna()` — keep only fully populated rows. -/
def dropna (rows : List (List (Option ℚ))) : List (List (Option ℚ)) :=
  rows.filter (fun r => r.all Option.isSome)

/-- `get_data` — APP.py lines 10–15: return `df.dropna()`, and on any
exception return the empty dataframe (`except: return pd.DataFrame()`). -/
def get_data (r : FetchOutcome) : List (List (Option ℚ)) :=
  match r with
  | .ok rows => dropna rows
  | .raised => []

/-! ## Basic facts about the embedded operations -/

lemma rollingMean_length (w : ℕ) (xs : List ℚ) :
    (rollingMean w xs).length = xs.length := by
  simp [rollingMean]

lemma rollingMean_getElem? (w : ℕ) (xs : List ℚ) (i : ℕ) (h : i < xs.length) :
    (rollingMean w xs)[i]? =
      some (if w ≤ i + 1 then some ((((xs.drop (i + 1 - w)).take w).sum) / w) else none) := by
  simp [rollingMean, List.getElem?_map, List.getElem?_range, h]

lemma rollingMean_getElem?_of_lt (w : ℕ) (xs : List ℚ) (i : ℕ)
    (h : i < xs.length) (hi : i + 1 < w) :
    (rollingMean w xs)[i]? = some none := by
  rw [rollingMean_getElem? w xs i h, if_neg (by omega)]

/-- The trailing window `xs[a..a+w-1]` as an explicit tuple. -/
lemma slice_eq_ofFn (xs : List ℚ) (a w : ℕ) (h : a + w ≤ xs.length) :
    (xs.drop a).take w = List.ofFn (fun j : Fin w => xs.get ⟨a + j, by omega⟩) := by
  apply List.ext_getElem
  · simp; omega
  · intro i h1 h2
    simp only [List.getElem_take, List.getElem_drop, List.getElem_ofFn, List.get_eq_getElem]

lemma slice_sum (xs : List ℚ) (a w : ℕ) (h : a + w ≤ xs.length) :
    ((xs.drop a).take w).sum = ∑ j ∈ Finset.range w, xs.getD (a + j) 0 := by
  rw [slice_eq_ofFn xs a w h, List.sum_ofFn]
  rw [← Fin.sum_univ_eq_sum_range (fun j => xs.getD (a + j) 0)]
  refine Finset.sum_congr rfl (fun j _ => ?_)
  simp only [List.get_eq_getElem, List.getD_eq_getElem?_getD, List.getElem?_eq_getElem
    (show a + (j : ℕ) < xs.length by omega), Option.getD_some]

lemma diffList_length (xs : List ℚ) : (diffList xs).length = xs.length := by
  cases xs with
  | nil => simp [diffList]
  | cons x rest => simp [diffList, List.length_zipWith]

lemma diffList_getElem?_zero (x : ℚ) (rest : List ℚ) :
    (diffList (x :: rest))[0]? = some none := by
  simp [diffList]

lemma diffList_getElem?_succ (xs : List ℚ) (j : ℕ) (h : j + 1 < xs.length) :
    (diffList xs)[j + 1]? = some (some (xs[j + 1] - xs[j])) := by
  cases xs with
  | nil => simp at h
  | cons x rest =>
    have hj : j < rest.length := by simpa using h
    simp only [diffList, List.getElem?_cons_succ, List.getElem?_zipWith]
    rw [List.getElem?_eq_getElem hj, List.getElem?_eq_getElem (by simp; omega :
      j < (x :: rest).length)]
    simp

lemma gainList_length (xs : List ℚ) : (gainList xs).length = xs.length := by
  simp [gainList, diffList_length]

lemma lossList_length (xs : List ℚ) : (lossList xs).length = xs.length := by
  simp [lossList, diffList_length]

lemma gainList_nonneg (xs : List ℚ) : ∀ y ∈ gainList xs, 0 ≤ y := by
  intro y hy
  simp only [gainList, List.mem_map] at hy
  obtain ⟨d, -, rfl⟩ := hy
  cases d with
  | none => simp
  | some v =>
    by_cases h : 0 < v <;> simp [h] <;> linarith

lemma lossList_nonneg (xs : List ℚ) : ∀ y ∈ lossList xs, 0 ≤ y := by
  intro y hy
  simp only [lossList, List.mem_map] at hy
  obtain ⟨d, -, rfl⟩ := hy
  cases d with
  | none => simp
  | some v =>
    by_cases h : v < 0 <;> simp [h] <;> linarith

lemma gainList_getElem?_succ (xs : List ℚ) (j : ℕ) (h : j + 1 < xs.length) :
    (gainList xs)[j + 1]? =
      some (if 0 < xs[j + 1] - xs[j] then xs[j + 1] - xs[j] else 0) := by
  simp only [gainList, List.getElem?_map, diffList_getElem?_succ xs j h, Option.map_some']

lemma lossList_getElem?_succ (xs : List ℚ) (j : ℕ) (h : j + 1 < xs.length) :
    (lossList xs)[j + 1]? =
      some (if xs[j + 1] - xs[j] < 0 then -(xs[j + 1] - xs[j]) else 0) := by
  simp only [lossList, List.getElem?_map, diffList_getElem?_succ xs j h, Option.map_some']

lemma avgGain_length (xs : List ℚ) (p : ℕ) : (avgGain xs p).length = xs.length := by
  simp [avgGain, rollingMean_length, gainList_length]

lemma avgLoss_length (xs : List ℚ) (p : ℕ) : (avgLoss xs p).length = xs.length := by
  simp [avgLoss, rollingMean_length, lossList_length]

lemma rsList_length (xs : List ℚ) (p : ℕ) : (rsList xs p).length = xs.length := by
  simp [rsList, List.length_zipWith, avgGain_length, avgLoss_length]

lemma rsiList_length (xs : List ℚ) (p : ℕ) : (rsiList xs p).length = xs.length := by
  simp [rsiList, rsList_length]

lemma rsList_getElem?_nan_of_lt (xs : List ℚ) (p i : ℕ) (h : i < xs.length)
    (hi : i + 1 < p) : (rsList xs p)[i]? = some Fl.nan := by
  have hg : (avgGain xs p)[i]? = some none :=
    rollingMean_getElem?_of_lt p (gainList xs) i (by rw [gainList_length]; exact h) hi
  have hl : (avgLoss xs p)[i]? = some none :=
    rollingMean_getElem?_of_lt p (lossList xs) i (by rw [lossList_length]; exact h) hi
  rw [rsList, List.getElem?_zipWith, hg, hl]

lemma rsList_getElem?_of_some (xs : List ℚ) (p i : ℕ) (g l : ℚ)
    (hg : (avgGain xs p)[i]? = some (some g)) (hl : (avgLoss xs p)[i]? = some (some l)) :
    (rsList xs p)[i]? = some (Fl.div (Fl.fin g) (Fl.fin l)) := by
  rw [rsList, List.getElem?_zipWith, hg, hl]

/-- The elementwise `100 - (100 / (1 + r))` transform of APP.py line 94. -/
lemma rsiList_getElem?_eq_map (xs : List ℚ) (p i : ℕ) :
    (rsiList xs p)[i]? = ((rsList xs p)[i]?).map
      (fun r => Fl.sub (Fl.fin 100) (Fl.div (Fl.fin 100) (Fl.add (Fl.fin 1) r))) := by
  rw [rsiList, List.getElem?_map]

lemma rsiList_getElem?_nan_of_lt (xs : List ℚ) (p i : ℕ) (h : i < xs.length)
    (hi : i + 1 < p) : (rsiList xs p)[i]? = some Fl.nan := by
  rw [rsiList_getElem?_eq_map, rsList_getElem?_nan_of_lt xs p i h hi]
  simp [Fl.add, Fl.div, Fl.sub, Fl.neg]

/-! ## Claims -/

/-- C3: for every close-price series and every window `w ≥ 1`, `sma` has
the same length as the input, its first `w-1` entries are undefined, and
every entry `i ≥ w-1` is the arithmetic mean of the `w` closes
`close[i-w+1..i]` (no look-ahead). -/
theorem sma_C3 (xs : List ℚ) (w : ℕ) (hw : 1 ≤ w) :
    (sma xs w).length = xs.length ∧
    (∀ i, i < xs.length → i + 1 < w → (sma xs w)[i]? = some none) ∧
    (∀ i, w - 1 ≤ i → i < xs.length →
      (sma xs w)[i]? =
        some (some ((∑ j ∈ Finset.range w, xs.getD (i + 1 - w + j) 0) / w))) := by
  refine ⟨rollingMean_length w xs, ?_, ?_⟩
  · intro i hi hiw
    exact rollingMean_getElem?_of_lt w xs i hi hiw
  · intro i hwi hi
    rw [sma, rollingMean_getElem? w xs i hi, if_pos (by omega),
      slice_sum xs (i + 1 - w) w (by omega)]

/-- C3 witness: the hand-built five-point series with window 3. -/
theorem sma_C3_witness :
    (sma [(1:ℚ), 2, 3, 4, 5] 3).length = ([(1:ℚ), 2, 3, 4, 5] : List ℚ).length ∧
    (sma [(1:ℚ), 2, 3, 4, 5] 3)[1]? = some none ∧
    (sma [(1:ℚ), 2, 3, 4, 5] 3)[4]? =
      some (some ((∑ j ∈ Finset.range 3, ([(1:ℚ), 2, 3, 4, 5]).getD (4 + 1 - 3 + j) 0) / 3)) :=
  ⟨(sma_C3 [(1:ℚ), 2, 3, 4, 5] 3 (by norm_num)).1,
   (sma_C3 [(1:ℚ), 2, 3, 4, 5] 3 (by norm_num)).2.1 1 (by norm_num) (by norm_num),
   (sma_C3 [(1:ℚ), 2, 3, 4, 5] 3 (by norm_num)).2.2 4 (by norm_num) (by norm_num)⟩

/-- C1 refuted at index 13: on the strictly increasing 14-point series
`0..13` the RSI entry at index `13 = P − 1 < P` is already defined (it is
`100`), because `where(delta > 0, 0)` turns the index-0 `NaN` delta into
a zero gain/loss observation, so the 14-window of `rolling(14).mean()` is
already full at index 13.  The claim asserts undefinedness at every
`i < 14`. -/
theorem rsi_C1_counterexample :
    (rsiList [(0:ℚ), 1, 2, 3, 4, 5, 6, 7, 8, 9, 10, 11, 12, 13] 14)[13]? =
      some (Fl.fin 100) ∧ 13 < 14 := by
  constructor
  · norm_num [rsiList, rsList, avgGain, avgLoss, rollingMean, gainList, lossList, diffList,
      List.range_succ, List.getElem?_zipWith, Fl.div, Fl.add, Fl.sub, Fl.neg]
  · norm_num

/-- C1 (amended): the RSI derived series is aligned 1:1 with the input,
and is undefined at every index `i < P − 1 = 13`; the trailing averages
already have a full `P`-window at index `P − 1`, because the missing
delta at index 0 enters the window as a zero gain and loss. -/
theorem rsi_C1_amended (xs : List ℚ) :
    (rsiList xs 14).length = xs.length ∧
    (∀ i, i < xs.length → i < 13 → (rsiList xs 14)[i]? = some Fl.nan) := by
  refine ⟨rsiList_length xs 14, fun i hi h13 => ?_⟩
  exact rsiList_getElem?_nan_of_lt xs 14 i hi (by omega)

/-- C1 (amended) witness: on the series `0..13`, the RSI column has
length 14 and its entry at index 5 is `NaN`. -/
theorem rsi_C1_amended_witness :
    (rsiList [(0:ℚ), 1, 2, 3, 4, 5, 6, 7, 8, 9, 10, 11, 12, 13] 14).length =
      ([(0:ℚ), 1, 2, 3, 4, 5, 6, 7, 8, 9, 10, 11, 12, 13] : List ℚ).length ∧
    (rsiList [(0:ℚ), 1, 2, 3, 4, 5, 6, 7, 8, 9, 10, 11, 12, 13] 14)[5]? = some Fl.nan :=
  ⟨(rsi_C1_amended [(0:ℚ), 1, 2, 3, 4, 5, 6, 7, 8, 9, 10, 11, 12, 13]).1,
   (rsi_C1_amended [(0:ℚ), 1, 2, 3, 4, 5, 6, 7, 8, 9, 10, 11, 12, 13]).2 5
     (by norm_num) (by norm_num)⟩

lemma rollingMean_getElem?_full (w : ℕ) (xs : List ℚ) (i : ℕ) (h : i < xs.length)
    (hw : w ≤ i + 1) :
    (rollingMean w xs)[i]? =
      some (some ((∑ j ∈ Finset.range w, xs.getD (i + 1 - w + j) 0) / w)) := by
  rw [rollingMean_getElem? w xs i h, if_pos hw, slice_sum xs (i + 1 - w) w (by omega)]

lemma sum_window_zero (ys : List ℚ) (hz : ∀ y ∈ ys, y = 0) (a w : ℕ) :
    ∑ j ∈ Finset.range w, ys.getD (a + j) 0 = 0 :=
  Finset.sum_eq_zero (fun j _ => by
    rcases lt_or_le (a + j) ys.length with h | h
    · rw [List.getD_eq_getElem?_getD, List.getElem?_eq_getElem h, Option.getD_some]
      exact hz _ (List.getElem_mem h)
    · rw [List.getD_eq_getElem?_getD, List.getElem?_eq_none h, Option.getD_none])

lemma diffList_flat (c : ℚ) (x : ℚ) (rest : List ℚ) (hx : x = c)
    (hrest : ∀ y ∈ rest, y = c) :
    List.zipWith (fun cur prev => some (cur - prev)) rest (x :: rest) =
      List.replicate rest.length (some (0 : ℚ)) := by
  induction rest generalizing x with
  | nil => simp
  | cons y rest2 ih =>
    have hy : y = c := hrest y (by simp)
    simp only [List.zipWith_cons_cons, List.length_cons, List.replicate_succ,
      List.cons.injEq]
    refine ⟨by rw [hy, hx]; simp, ?_⟩
    exact ih y hy (fun z hz => hrest z (by simp [hz]))

lemma gainList_flat (c : ℚ) (xs : List ℚ) (hflat : ∀ x ∈ xs, x = c) :
    ∀ y ∈ gainList xs, y = 0 := by
  intro y hy
  simp only [gainList, List.mem_map] at hy
  obtain ⟨d, hd, rfl⟩ := hy
  cases xs with
  | nil => simp [diffList] at hd
  | cons x rest =>
    rw [diffList, diffList_flat c x rest (hflat x (by simp))
      (fun z hz => hflat z (by simp [hz]))] at hd
    rcases List.mem_cons.mp hd with rfl | hd
    · rfl
    · rw [List.eq_of_mem_replicate hd]; norm_num

lemma lossList_flat (c : ℚ) (xs : List ℚ) (hflat : ∀ x ∈ xs, x = c) :
    ∀ y ∈ lossList xs, y = 0 := by
  intro y hy
  simp only [lossList, List.mem_map] at hy
  obtain ⟨d, hd, rfl⟩ := hy
  cases xs with
  | nil => simp [diffList] at hd
  | cons x rest =>
    rw [diffList, diffList_flat c x rest (hflat x (by simp))
      (fun z hz => hflat z (by simp [hz]))] at hd
    rcases List.mem_cons.mp hd with rfl | hd
    · rfl
    · rw [List.eq_of_mem_replicate hd]; norm_num

/-- C6: on a flat close-price series (all closes equal) longer than the
period, every RSI entry is undefined (`NaN` from the `0/0` relative
strength), at every index — never `100` and never a numeric value. -/
theorem rsi_C6 (c : ℚ) (xs : List ℚ) (hflat : ∀ x ∈ xs, x = c)
    (hlen : 14 < xs.length) :
    ∀ i, i < xs.length → (rsiList xs 14)[i]? = some Fl.nan := by
  intro i hi
  rcases lt_or_le i 13 with h13 | h13
  · exact rsiList_getElem?_nan_of_lt xs 14 i hi (by omega)
  · have hg : (avgGain xs 14)[i]? = some (some 0) := by
      rw [avgGain, rollingMean_getElem?_full 14 (gainList xs) i
        (by rw [gainList_length]; exact hi) (by omega),
        sum_window_zero (gainList xs) (gainList_flat c xs hflat) (i + 1 - 14) 14]
      norm_num
    have hl : (avgLoss xs 14)[i]? = some (some 0) := by
      rw [avgLoss, rollingMean_getElem?_full 14 (lossList xs) i
        (by rw [lossList_length]; exact hi) (by omega),
        sum_window_zero (lossList xs) (lossList_flat c xs hflat) (i + 1 - 14) 14]
      norm_num
    rw [rsiList_getElem?_eq_map, rsList_getElem?_of_some xs 14 i 0 0 hg hl]
    simp [Fl.div, Fl.add, Fl.sub, Fl.neg]

/-- C6 witness: sixteen equal closes; the RSI entry at index 15 is `NaN`. -/
theorem rsi_C6_witness :
    (rsiList (List.replicate 16 (5 : ℚ)) 14)[15]? = some Fl.nan :=
  rsi_C6 5 (List.replicate 16 (5 : ℚ)) (fun x hx => List.eq_of_mem_replicate hx)
    (by simp) 15 (by simp)

/-- C7: on a strictly increasing close-price series longer than the
period, at every index `i ≥ P = 14` the rolling average loss is `0` and
the RSI entry equals `100` (the `avgLoss = 0 < avgGain` edge case:
`rs = +∞`, `RSI = 100 − 100/(1+∞) = 100`). -/
theorem rsi_C7 (xs : List ℚ) (hmono : List.Chain' (· < ·) xs)
    (hlen : 14 < xs.length) :
    ∀ i, 14 ≤ i → i < xs.length →
      (avgLoss xs 14)[i]? = some (some 0) ∧
      (rsiList xs 14)[i]? = some (Fl.fin 100) := by
  have hstep : ∀ (j : ℕ) (hj : j + 1 < xs.length), xs[j] < xs[j + 1] := by
    rw [List.chain'_iff_get] at hmono
    intro j hj
    simpa [List.get_eq_getElem] using hmono j (by omega)
  intro i hi14 hilen
  have hlz : ∀ j ∈ Finset.range 14, (lossList xs).getD (i + 1 - 14 + j) 0 = 0 := by
    intro j hj
    simp only [Finset.mem_range] at hj
    obtain ⟨m, hm⟩ : ∃ m, i + 1 - 14 + j = m + 1 := ⟨i + 1 - 14 + j - 1, by omega⟩
    rw [hm, List.getD_eq_getElem?_getD, lossList_getElem?_succ xs m (by omega)]
    have := hstep m (by omega)
    rw [if_neg (by linarith)]
    rfl
  have hgpos : ∀ j ∈ Finset.range 14, 0 < (gainList xs).getD (i + 1 - 14 + j) 0 := by
    intro j hj
    simp only [Finset.mem_range] at hj
    obtain ⟨m, hm⟩ : ∃ m, i + 1 - 14 + j = m + 1 := ⟨i + 1 - 14 + j - 1, by omega⟩
    rw [hm, List.getD_eq_getElem?_getD, gainList_getElem?_succ xs m (by omega)]
    have := hstep m (by omega)
    rw [if_pos (by linarith)]
    simpa using this
  have hl : (avgLoss xs 14)[i]? = some (some 0) := by
    rw [avgLoss, rollingMean_getElem?_full 14 (lossList xs) i
      (by rw [lossList_length]; exact hilen) (by omega), Finset.sum_eq_zero hlz]
    norm_num
  have hsum : 0 < ∑ j ∈ Finset.range 14, (gainList xs).getD (i + 1 - 14 + j) 0 :=
    Finset.sum_pos hgpos (by norm_num)
  obtain ⟨q, hg, hq⟩ : ∃ q : ℚ, (avgGain xs 14)[i]? = some (some q) ∧ 0 < q := by
    refine ⟨(∑ j ∈ Finset.range 14, (gainList xs).getD (i + 1 - 14 + j) 0) / ((14 : ℕ) : ℚ),
      ?_, div_pos hsum (by norm_num)⟩
    rw [avgGain, rollingMean_getElem?_full 14 (gainList xs) i
      (by rw [gainList_length]; exact hilen) (by omega)]
  refine ⟨hl, ?_⟩
  rw [rsiList_getElem?_eq_map, rsList_getElem?_of_some xs 14 i q 0 hg hl]
  simp [Fl.div, Fl.add, Fl.sub, Fl.neg, hq, hq.ne']

/-- C7 witness: the closes `0..15`; at index 14 the rolling average loss
is `0` and the RSI entry is `100`. -/
theorem rsi_C7_witness :
    (avgLoss [(0:ℚ), 1, 2, 3, 4, 5, 6, 7, 8, 9, 10, 11, 12, 13, 14, 15] 14)[14]? =
      some (some 0) ∧
    (rsiList [(0:ℚ), 1, 2, 3, 4, 5, 6, 7, 8, 9, 10, 11, 12, 13, 14, 15] 14)[14]? =
      some (Fl.fin 100) :=
  rsi_C7 [(0:ℚ), 1, 2, 3, 4, 5, 6, 7, 8, 9, 10, 11, 12, 13, 14, 15]
    (by norm_num [List.chain'_cons]) (by norm_num) 14 (by norm_num) (by norm_num)

lemma rollingMean_nonneg (w : ℕ) (ys : List ℚ) (i : ℕ) (v : ℚ)
    (hnn : ∀ y ∈ ys, 0 ≤ y) (h : (rollingMean w ys)[i]? = some (some v)) : 0 ≤ v := by
  have hi : i < ys.length := by
    by_contra hc
    rw [List.getElem?_eq_none (by rw [rollingMean_length]; omega)] at h
    exact Option.noConfusion h
  rw [rollingMean_getElem? w ys i hi] at h
  by_cases hw : w ≤ i + 1
  · rw [if_pos hw] at h
    obtain rfl : (((ys.drop (i + 1 - w)).take w).sum) / (w : ℚ) = v := by
      simpa using h
    refine div_nonneg (List.sum_nonneg fun y hy => ?_) (by positivity)
    exact hnn y (List.mem_of_mem_drop (List.mem_of_mem_take hy))
  · rw [if_neg hw] at h
    simp at h

lemma rsList_getElem?_cases (xs : List ℚ) (p i : ℕ) (r : Fl)
    (hr : (rsList xs p)[i]? = some r) :
    r = Fl.nan ∨ ∃ g l : ℚ, 0 ≤ g ∧ 0 ≤ l ∧ r = Fl.div (Fl.fin g) (Fl.fin l) := by
  rw [rsList, List.getElem?_zipWith] at hr
  cases hg : (avgGain xs p)[i]? with
  | none => rw [hg] at hr; simp at hr
  | some go =>
    cases hl : (avgLoss xs p)[i]? with
    | none => rw [hg, hl] at hr; simp at hr
    | some lo =>
      rw [hg, hl] at hr
      cases go with
      | none => left; cases lo <;> simpa using hr.symm
      | some g =>
        cases lo with
        | none => left; simpa using hr.symm
        | some l =>
          right
          refine ⟨g, l, rollingMean_nonneg p (gainList xs) i g (gainList_nonneg xs) hg,
            rollingMean_nonneg p (lossList xs) i l (lossList_nonneg xs) hl, ?_⟩
          simpa using hr.symm

/-- C9: at every index where the RSI series is defined (a finite value,
not `NaN`), the value lies in `[0, 100]`. -/
theorem rsi_C9 (xs : List ℚ) (p i : ℕ) (q : ℚ)
    (h : (rsiList xs p)[i]? = some (Fl.fin q)) : 0 ≤ q ∧ q ≤ 100 := by
  rw [rsiList_getElem?_eq_map] at h
  obtain ⟨r, hr, htrans⟩ := Option.map_eq_some'.mp h
  have hq : q = 100 ∨ ∃ x : ℚ, 0 ≤ x ∧ q = 100 - 100 / (1 + x) := by
    rcases rsList_getElem?_cases xs p i r hr with rfl | ⟨g, l, hgnn, hlnn, rfl⟩
    · simp [Fl.sub, Fl.add, Fl.div, Fl.neg] at htrans
    · by_cases hl0 : l = 0
      · subst hl0
        by_cases hg0 : g = 0
        · subst hg0
          simp [Fl.sub, Fl.add, Fl.div, Fl.neg] at htrans
        · left
          have hgp : 0 < g := lt_of_le_of_ne hgnn (Ne.symm hg0)
          simp only [Fl.div, if_pos rfl, if_neg hg0, if_pos hgp, Fl.add, Fl.sub,
            Fl.neg] at htrans
          simpa using htrans.symm
      · right
        have hx : 0 ≤ g / l := div_nonneg hgnn hlnn
        refine ⟨g / l, hx, ?_⟩
        have h1 : (1 : ℚ) + g / l ≠ 0 := by positivity
        simp only [Fl.div, if_neg hl0, Fl.add, Fl.sub, Fl.neg, if_neg h1] at htrans
        have h100 : (100 : ℚ) + -(100 / (1 + g / l)) = q := by simpa using htrans
        linarith
  rcases hq with rfl | ⟨x, hx, rfl⟩
  · norm_num
  · have h1 : (0 : ℚ) < 1 + x := by linarith
    have h2 : 100 / (1 + x) ≤ 100 := div_le_self (by norm_num) (by linarith)
    have h3 : 0 < 100 / (1 + x) := div_pos (by norm_num) h1
    constructor <;> linarith

/-- C9 witness: on an alternating 15-point series, the RSI entry at
index 13 is the finite value `600/13`, which the theorem places in
`[0, 100]`. -/
theorem rsi_C9_witness :
    0 ≤ (600 / 13 : ℚ) ∧ (600 / 13 : ℚ) ≤ 100 :=
  rsi_C9 [(2:ℚ), 1, 2, 1, 2, 1, 2, 1, 2, 1, 2, 1, 2, 1, 2] 14 13 (600 / 13)
    (by norm_num [rsiList, rsList, avgGain, avgLoss, rollingMean, gainList, lossList,
      diffList, List.range_succ, List.getElem?_zipWith, Fl.div, Fl.add, Fl.sub, Fl.neg])

/-- C5: for every non-empty close-price series and span `≥ 1`, the EMA
column is aligned with the input and has a defined value at every index
(in particular at every point after the first), and on a one-point
series it equals that single close. -/
theorem ema_C5 (xs : List ℚ) (span : ℕ) (hspan : 1 ≤ span) (hne : xs ≠ []) :
    (ema xs span).length = xs.length ∧
    (∀ i, i < xs.length → ∃ q, (ema xs span)[i]? = some q) ∧
    (∀ c : ℚ, ema [c] span = [c]) := by
  refine ⟨by simp [ema], fun i hi => ?_, fun c => ?_⟩
  · have hi2 : i < (ema xs span).length := by simpa [ema] using hi
    exact ⟨(ema xs span).get ⟨i, hi2⟩, by
      rw [List.getElem?_eq_getElem hi2, List.get_eq_getElem]⟩
  · simp [ema, List.range_succ]

/-- C5 witness: a single-point series with span 9. -/
theorem ema_C5_witness :
    (ema [(7:ℚ)] 9).length = ([(7:ℚ)] : List ℚ).length ∧
    (∃ q, (ema [(7:ℚ)] 9)[0]? = some q) ∧
    ema [(7:ℚ)] 9 = [(7:ℚ)] :=
  ⟨(ema_C5 [(7:ℚ)] 9 (by norm_num) (by simp)).1,
   (ema_C5 [(7:ℚ)] 9 (by norm_num) (by simp)).2.1 0 (by simp),
   (ema_C5 [(7:ℚ)] 9 (by norm_num) (by simp)).2.2 7⟩

/-- C4: with at least two points and a positive elapsed span, `cagr`
produces the ratio `lastClose/firstClose` and the year count
`(lastTimestamp − firstTimestamp)/365`, whose displayed value is
`(lastClose/firstClose) ^ (1/years) − 1`; on fewer than two points or a
non-positive span it is Unavailable (`none`), and every produced year
count is positive.  On `[100, 121]` spanning exactly two years (730
days) the displayed value is exactly `1/10`. -/
theorem cagr_C4 :
    (∀ (t0 : ℤ) (c0 : ℚ) (rest : List (ℤ × ℚ)) (t1 : ℤ) (c1 : ℚ),
      ((t0, c0) :: rest).getLast? = some (t1, c1) → 0 < t1 - t0 →
      cagr ((t0, c0) :: rest) = some (c1 / c0, ((t1 - t0 : ℤ) : ℚ) / 365)) ∧
    (∀ s : List (ℤ × ℚ), s.length < 2 → cagr s = none) ∧
    (∀ (s : List (ℤ × ℚ)) (b y : ℚ), cagr s = some (b, y) → 0 < y ∧ 2 ≤ s.length) ∧
    (cagr [((0 : ℤ), (100 : ℚ)), (730, 121)] = some (121 / 100, 2) ∧
      ((121 / 100 : ℝ) ^ ((2 : ℝ))⁻¹ - 1 = 1 / 10)) := by
  have hpos : ∀ (t0 t1 : ℤ), 0 < t1 - t0 → 0 < ((t1 - t0 : ℤ) : ℚ) / 365 := by
    intro t0 t1 h
    have : (0 : ℚ) < ((t1 - t0 : ℤ) : ℚ) := by exact_mod_cast h
    positivity
  refine ⟨?_, ?_, ?_, ?_, ?_⟩
  · intro t0 c0 rest t1 c1 hlast ht
    rw [cagr, List.head?_cons, hlast]
    show (if 0 < ((t1 - t0 : ℤ) : ℚ) / 365
        then some (c1 / c0, ((t1 - t0 : ℤ) : ℚ) / 365) else none) =
      some (c1 / c0, ((t1 - t0 : ℤ) : ℚ) / 365)
    rw [if_pos (hpos t0 t1 ht)]
  · intro s hs
    match s, hs with
    | [], _ => rfl
    | [(t, c)], _ => simp [cagr]
  · intro s b y hy
    match s with
    | [] => simp [cagr] at hy
    | [(t, c)] => simp [cagr] at hy
    | (t0, c0) :: (t2, c2) :: rest =>
      refine ⟨?_, by simp⟩
      rw [cagr, List.head?_cons] at hy
      rcases hlast : ((t0, c0) :: (t2, c2) :: rest).getLast? with - | ⟨t1, c1⟩
      · simp [List.getLast?_eq_none_iff] at hlast
      · rw [hlast] at hy
        have hy2 : (if 0 < ((t1 - t0 : ℤ) : ℚ) / 365
            then some (c1 / c0, ((t1 - t0 : ℤ) : ℚ) / 365) else none) = some (b, y) := hy
        by_cases hgt : 0 < ((t1 - t0 : ℤ) : ℚ) / 365
        · rw [if_pos hgt] at hy2
          obtain ⟨-, rfl⟩ : c1 / c0 = b ∧ ((t1 - t0 : ℤ) : ℚ) / 365 = y := by
            simpa using hy2
          exact hgt
        · rw [if_neg hgt] at hy2
          exact Option.noConfusion hy2
  · rw [cagr]
    norm_num
  · rw [show ((2 : ℝ))⁻¹ = (1 / 2 : ℝ) by norm_num, ← Real.sqrt_eq_rpow,
      show (121 / 100 : ℝ) = (11 / 10 : ℝ) ^ 2 by norm_num,
      Real.sqrt_sq (by norm_num)]
    norm_num

/-- C4 witness: a two-point series spanning 731 days produces the ratio
`121/100` and the positive year count `731/365`. -/
theorem cagr_C4_witness :
    cagr [((0 : ℤ), (100 : ℚ)), (731, 121)] = some (121 / 100, 731 / 365) := by
  have h := cagr_C4.1 0 100 [(731, 121)] 731 121 (by rfl) (by norm_num)
  simpa using h

lemma filterMap_congr_some {α β : Type} (a : List α) (f : α → Option β) (g : α → β)
    (h : ∀ x ∈ a, f x = some (g x)) : a.filterMap f = a.map g := by
  induction a with
  | nil => rfl
  | cons x rest ih =>
    rw [List.filterMap_cons, h x (by simp), List.map_cons,
      ih (fun z hz => h z (by simp [hz]))]

lemma lookupT_self (s : List (ℤ × ℚ)) (h : (s.map Prod.fst).Nodup) :
    ∀ p ∈ s, lookupT p.1 s = some p.2 := by
  induction s with
  | nil => simp
  | cons qp rest ih =>
    intro p hp
    rw [List.map_cons] at h
    have hcons := List.nodup_cons.mp h
    rcases List.mem_cons.mp hp with rfl | hp2
    · rw [lookupT, if_pos rfl]
    · have hne : qp.1 ≠ p.1 := by
        intro he
        exact hcons.1 (he ▸ List.mem_map_of_mem Prod.fst hp2)
      rw [lookupT, if_neg hne]
      exact ih hcons.2 p hp2

lemma alignInner_self (s : List (ℤ × ℚ)) (h : (s.map Prod.fst).Nodup) :
    alignInner s s = s.map (fun p => (p.2, p.2)) := by
  rw [alignInner]
  refine filterMap_congr_some s _ _ (fun p hp => ?_)
  rw [lookupT_self s h p hp]
  rfl

lemma covFl_fin_length (xs ys : List ℚ) (v : ℚ) (hv : covFl xs ys = Fl.fin v) :
    2 ≤ xs.length := by
  rw [covFl] at hv
  by_cases h2 : xs.length < 2
  · rw [if_pos h2] at hv
    exact absurd hv (by simp)
  · omega

/-- C2 (amended): `beta` warns (Unavailable, `none`) exactly when the
inner-joined close series is empty; on a non-empty join it always
produces a value without raising, but when the benchmark's return
variance is zero (or fewer than two return observations remain, where
the variance entry is `NaN`) that value is `NaN` or an infinity —
displayed as the beta, not signalled as Unavailable. -/
theorem beta_C2_amended :
    (∀ a b : List (ℤ × ℚ), beta a b = none ↔ alignInner a b = []) ∧
    (∀ a b : List (ℤ × ℚ), alignInner a b ≠ [] →
      ∃ f, beta a b = some f ∧
        (covFl (pctChange ((alignInner a b).map Prod.snd))
            (pctChange ((alignInner a b).map Prod.snd)) = Fl.fin 0 →
          f = Fl.nan ∨ f = Fl.inf ∨ f = Fl.ninf)) := by
  constructor
  · intro a b
    simp only [beta]
    split_ifs with h
    · simp [List.isEmpty_iff.mp h]
    · have hne : alignInner a b ≠ [] := by
        intro he
        exact h (by simp [he])
      simp [hne]
  · intro a b hne
    have hb : ¬ ((alignInner a b).isEmpty = true) := by
      simp [List.isEmpty_iff, hne]
    refine ⟨Fl.div
        (covFl (pctChange ((alignInner a b).map Prod.fst))
          (pctChange ((alignInner a b).map Prod.snd)))
        (covFl (pctChange ((alignInner a b).map Prod.snd))
          (pctChange ((alignInner a b).map Prod.snd))), ?_, ?_⟩
    · simp only [beta]
      rw [if_neg hb]
    · intro hv0
      rw [hv0]
      cases hc : covFl (pctChange ((alignInner a b).map Prod.fst))
          (pctChange ((alignInner a b).map Prod.snd)) with
      | nan => norm_num [Fl.div]
      | inf => norm_num [Fl.div]
      | ninf => norm_num [Fl.div]
      | fin x =>
        by_cases hx : x = 0
        · norm_num [Fl.div, hx]
        · by_cases hxp : 0 < x
          · norm_num [Fl.div, hx, hxp]
          · norm_num [Fl.div, hx, hxp]

/-- C2 (amended) witness: two series with no shared timestamp give an
empty join and the Unavailable warning; on a non-empty join `beta`
always yields a displayed value. -/
theorem beta_C2_amended_witness :
    beta [((0:ℤ), (1:ℚ))] [((1:ℤ), (2:ℚ))] = none ∧
    ∃ f, beta [((5:ℤ), (3:ℚ)), (6, 4)] [((5:ℤ), (2:ℚ)), (6, 2)] = some f ∧
      (covFl (pctChange ((alignInner [((5:ℤ), (3:ℚ)), (6, 4)]
          [((5:ℤ), (2:ℚ)), (6, 2)]).map Prod.snd))
        (pctChange ((alignInner [((5:ℤ), (3:ℚ)), (6, 4)]
          [((5:ℤ), (2:ℚ)), (6, 2)]).map Prod.snd)) = Fl.fin 0 →
        f = Fl.nan ∨ f = Fl.inf ∨ f = Fl.ninf) :=
  ⟨(beta_C2_amended.1 [((0:ℤ), (1:ℚ))] [((1:ℤ), (2:ℚ))]).mpr
      (by simp [alignInner, lookupT, List.filterMap_cons]),
   beta_C2_amended.2 [((5:ℤ), (3:ℚ)), (6, 4)] [((5:ℤ), (2:ℚ)), (6, 2)]
      (by simp [alignInner, lookupT, List.filterMap_cons])⟩

/-- C2 refuted as stated: stock closes `1, 2, 4` against the constant
benchmark `1, 1, 1` on shared timestamps.  The aligned series is
non-empty, the benchmark's return variance is zero, and yet `beta` does
not signal Unavailable — it produces the value `NaN` (from `0/0`), which
the app displays. -/
theorem beta_C2_counterexample :
    beta [((0:ℤ), (1:ℚ)), (1, 2), (2, 4)] [((0:ℤ), (1:ℚ)), (1, 1), (2, 1)] =
      some Fl.nan ∧
    alignInner [((0:ℤ), (1:ℚ)), (1, 2), (2, 4)] [((0:ℤ), (1:ℚ)), (1, 1), (2, 1)] ≠ [] ∧
    covFl (pctChange (((alignInner [((0:ℤ), (1:ℚ)), (1, 2), (2, 4)]
        [((0:ℤ), (1:ℚ)), (1, 1), (2, 1)])).map Prod.snd))
      (pctChange (((alignInner [((0:ℤ), (1:ℚ)), (1, 2), (2, 4)]
        [((0:ℤ), (1:ℚ)), (1, 1), (2, 1)])).map Prod.snd)) = Fl.fin 0 := by
  refine ⟨?_, ?_, ?_⟩
  · norm_num [beta, alignInner, lookupT, pctChange, covFl, covQ, meanQ, Fl.div,
      List.filterMap_cons]
  · simp [alignInner, lookupT, List.filterMap_cons]
  · norm_num [alignInner, lookupT, pctChange, covFl, covQ, meanQ, List.filterMap_cons]

/-- C8: `beta` of a series against itself is exactly `1` whenever the
series' percentage-change returns have strictly positive variance (the
same sample covariance appears in numerator and denominator).  The
positivity of the closes makes the exact-rational model of
`pct_change` faithful to the float code (no division by a zero close). -/
theorem beta_C8 (s : List (ℤ × ℚ)) (hnodup : (s.map Prod.fst).Nodup)
    (hpos : ∀ p ∈ s, 0 < p.2) (v : ℚ)
    (hv : covFl (pctChange (s.map Prod.snd)) (pctChange (s.map Prod.snd)) = Fl.fin v)
    (hvpos : 0 < v) :
    beta s s = some (Fl.fin 1) := by
  have halign : alignInner s s = s.map (fun p => (p.2, p.2)) := alignInner_self s hnodup
  have hfst : (alignInner s s).map Prod.fst = s.map Prod.snd := by
    rw [halign, List.map_map]
    rfl
  have hsnd : (alignInner s s).map Prod.snd = s.map Prod.snd := by
    rw [halign, List.map_map]
    rfl
  have hlen2 : 2 ≤ (pctChange (s.map Prod.snd)).length :=
    covFl_fin_length _ _ v hv
  have hsne : s ≠ [] := by
    rintro rfl
    simp [pctChange] at hlen2
  have hb : ¬ ((alignInner s s).isEmpty = true) := by
    rw [halign]
    simp [List.isEmpty_iff, hsne]
  simp only [beta]
  rw [if_neg hb, hfst, hsnd, hv]
  have : Fl.div (Fl.fin v) (Fl.fin v) = Fl.fin 1 := by
    rw [Fl.div, if_neg hvpos.ne', div_self hvpos.ne']
  rw [this]

/-- C8 witness: the three-point series with closes `1, 2, 1`; the return
variance is `9/8 > 0` and beta against itself is exactly `1`. -/
theorem beta_C8_witness :
    beta [((0:ℤ), (1:ℚ)), (1, 2), (2, 1)] [((0:ℤ), (1:ℚ)), (1, 2), (2, 1)] =
      some (Fl.fin 1) :=
  beta_C8 [((0:ℤ), (1:ℚ)), (1, 2), (2, 1)] (by norm_num)
    (by norm_num) (9 / 8)
    (by norm_num [pctChange, covFl, covQ, meanQ]) (by norm_num)

/-- C10: `get_data` is total at its interface — a raised provider
exception yields the empty frame, and every row of any returned frame is
fully populated (no missing cells survive `dropna`). -/
theorem get_data_C10 :
    get_data FetchOutcome.raised = [] ∧
    (∀ (r : FetchOutcome) (row : List (Option ℚ)), row ∈ get_data r →
      ∀ v ∈ row, v.isSome = true) := by
  refine ⟨rfl, ?_⟩
  intro r row hrow v hv
  cases r with
  | raised => simp [get_data] at hrow
  | ok rows =>
    rw [get_data, dropna] at hrow
    exact List.all_eq_true.mp (List.mem_filter.mp hrow).2 v hv

/-- C10 witness: a frame with one incomplete and one complete row — the
surviving row's cells are all populated. -/
theorem get_data_C10_witness :
    get_data FetchOutcome.raised = [] ∧ (some (2:ℚ)).isSome = true :=
  ⟨get_data_C10.1,
   get_data_C10.2 (FetchOutcome.ok [[some 1, none], [some 2, some 3]])
     [some 2, some 3] (by simp [get_data, dropna]) (some 2) (by simp)⟩

end StockApp
